import Mathlib

/-!
# Verification of the ReScience metadata parser (`article.py`, `yaml-to-latex.py`)

Shallow embedding of the core of the repository: name formatting
(`get_lastname`, `get_abbrvname`), author-list joining (`get_author_list`,
`get_author_lists`), `Date` construction, and `Article` model construction
(`Article.__init__` / `Article.parse` / `Article.add_contributor`).

Python strings are modelled as `List Char` (`PyStr`); the Python string
operations used by the source (`split` with an explicit one-character
separator, `strip`, `upper`, `join`, slicing) are given their Python
semantics below.  Operations that can raise `IndexError` are made fallible
(`Option` / `Except PyErr`).  The YAML document, after `yaml.load`, is
modelled as a typed record holding the sections the code reads; scalar
fields that the code merely copies (title, keywords, dates, review,
replication, article, journal numbers) are total string copies and are
omitted from the record, except that `Date` construction is embedded
separately (`Date.make`) with the external `dateutil` parser as a
parameter.
-/

/-- A Python string, as a sequence of characters. -/
abbrev PyStr := List Char

/-- Python `s.split(sep)` for a one-character separator: splits at every
occurrence and keeps empty fragments; `"".split(sep) == [""]`. -/
def pySplit (sep : Char) : PyStr → List PyStr
  | [] => [[]]
  | c :: rest =>
    match pySplit sep rest with
    | [] => [[]]
    | w :: ws => if c = sep then [] :: w :: ws else (c :: w) :: ws

/-- Python `s.strip()`: remove leading and trailing whitespace. -/
def pyStrip (s : PyStr) : PyStr :=
  ((s.dropWhile Char.isWhitespace).reverse.dropWhile Char.isWhitespace).reverse

/-- Python `s.upper()` (ASCII case mapping, which covers the source's data). -/
def pyUpper (s : PyStr) : PyStr := s.map Char.toUpper

/-- Python `sep.join(xs)`. -/
def pyJoin (sep : PyStr) : List PyStr → PyStr
  | [] => []
  | [x] => x
  | x :: y :: rest => x ++ sep ++ pyJoin sep (y :: rest)

/-- `SUFFIXES = ["II", "III", "IV", "V", "VI", "VII", "VIII", "IX", "X"]`. -/
def SUFFIXES : List PyStr :=
  ["II".toList, "III".toList, "IV".toList, "V".toList, "VI".toList,
   "VII".toList, "VIII".toList, "IX".toList, "X".toList]

/-- `get_lastname(name)` from `article.py`. -/
def get_lastname (name : PyStr) : PyStr :=
  if name = [] then []
  else if ',' ∈ name then pyStrip ((pySplit ',' name).headD [])
  else
    let parts := pySplit ' ' name
    let lastname := parts.getLastD []
    if lastname ∈ SUFFIXES then pyJoin " ".toList (parts.drop (parts.length - 2))
    else lastname

/-- The inner loop of `get_abbrvname`: `for name_part in firstname.split("-")`.
`name_part[0]` raises `IndexError` on an empty fragment, hence `Option`. -/
def abbrv_inner : PyStr → List PyStr → Option PyStr
  | abbrvname, [] => some abbrvname
  | abbrvname, part :: rest =>
    match part with
    | [] => none
    | c :: _ => abbrv_inner (abbrvname ++ pyUpper (pyStrip [c]) ++ ".-".toList) rest

/-- The outer loop of `get_abbrvname`: `for firstname in firstnames`, with the
`abbrvname = abbrvname[:-1]` truncation after a hyphenated token. -/
def abbrv_outer : PyStr → List PyStr → Option PyStr
  | abbrvname, [] => some abbrvname
  | abbrvname, firstname :: rest =>
    if '-' ∈ firstname then
      match abbrv_inner abbrvname (pySplit '-' firstname) with
      | none => none
      | some s => abbrv_outer s.dropLast rest
    else
      match firstname with
      | [] => none
      | c :: _ => abbrv_outer (abbrvname ++ pyUpper (pyStrip [c]) ++ ".".toList) rest

/-- `get_abbrvname(name)` from `article.py`.  The index `[1]` into
`name.split(",")` is guarded by the `"," in name` test, so `getD` is exact. -/
def get_abbrvname (name : PyStr) : Option PyStr :=
  if name = [] then some []
  else
    let lf :=
      if ',' ∈ name then
        ((pySplit ',' name).headD [],
         pySplit ' ' (pyStrip ((pySplit ',' name).getD 1 [])))
      else
        let parts := pySplit ' ' name
        let lastname := parts.getLastD []
        if lastname ∈ SUFFIXES then
          (pyJoin " ".toList (parts.drop (parts.length - 2)),
           parts.take (parts.length - 2))
        else (lastname, parts.dropLast)
    match abbrv_outer [] lf.2 with
    | none => none
    | some abbrvname => some (abbrvname ++ " ".toList ++ lf.1)

/-- The `for author_i in range(n_authors - 2)` loop of `get_author_list`. -/
def author_list_loop (authors : List PyStr) : PyStr → List Nat → Option PyStr
  | acc, [] => some acc
  | acc, i :: rest =>
    match authors[i]? with
    | none => none
    | some a => author_list_loop authors (acc ++ a ++ ", ".toList) rest

/-- `get_author_list(authors)` from `article.py`.  List indexing raises
`IndexError` out of bounds (it is reached with `authors[0]` when
`n_authors == 0`), hence `Option`. -/
def get_author_list (authors : List PyStr) : Option PyStr :=
  let n_authors := authors.length
  if n_authors = 1 then
    match authors[0]? with
    | none => none
    | some a => some ([] ++ a)
  else if 1 < n_authors ∧ n_authors ≤ 3 then
    match author_list_loop authors [] (List.range (n_authors - 2)) with
    | none => none
    | some acc =>
      if 2 ≤ n_authors then
        match authors[n_authors - 2]?, authors[n_authors - 1]? with
        | some a, some b => some (acc ++ a ++ " and ".toList ++ b)
        | _, _ => none
      else some acc
  else
    match authors[0]? with
    | none => none
    | some a => some (a ++ " et al.".toList)

/-- `Contributor` dataclass. `__post_init__` derives `lastname` and
`abbrvname` from `name`; `get_abbrvname` may raise, so construction is
fallible (`Contributor.make`). -/
structure Contributor where
  role : PyStr
  name : PyStr
  orcid : PyStr
  email : PyStr
  affiliations : List PyStr
  lastname : PyStr
  abbrvname : PyStr
deriving DecidableEq, Repr

/-- `Contributor(role, name, orcid, email, affiliations)` including
`__post_init__`. -/
def Contributor.make (role name orcid email : PyStr) (affiliations : List PyStr) :
    Option Contributor :=
  match get_abbrvname name with
  | none => none
  | some ab => some ⟨role, name, orcid, email, affiliations, get_lastname name, ab⟩

/-- `AuthorLists` dataclass. -/
structure AuthorLists where
  short : PyStr
  abbreviated : PyStr
  full : PyStr
deriving DecidableEq, Repr

/-- `get_author_lists(authors)` from `article.py`. -/
def get_author_lists (authors : List Contributor) : Option AuthorLists :=
  match get_author_list (authors.map (fun a => a.lastname)) with
  | none => none
  | some short =>
    match get_author_list (authors.map (fun a => a.abbrvname)) with
    | none => none
    | some abbrv =>
      match get_author_list (authors.map (fun a => a.name)) with
      | none => none
      | some full => some ⟨short, abbrv, full⟩

/-- `Affiliation` dataclass. -/
structure Affiliation where
  code : PyStr
  name : PyStr
  address : PyStr
deriving DecidableEq, Repr

/-- `Repository` dataclass. -/
structure Repository where
  name : PyStr
  url : PyStr
  doi : PyStr
  swh : PyStr
deriving DecidableEq, Repr

/-- Calendar fields of a parsed date (the part of a Python `datetime` the
source reads). -/
structure DateParts where
  year : Nat
  month : Nat
  day : Nat
deriving DecidableEq, Repr

/-- The `Date` class: fields set by `Date.__init__`. -/
structure Date where
  date : DateParts
  year : Nat
  month : Nat
  day : Nat
  textual : PyStr
deriving DecidableEq, Repr

/-- `Date.__init__(date)`.  The external `dateutil.parser.parse` is the
parameter `parse`, returning `none` when it raises (the bare `except:`
catches everything); `strftime` renders `"%d %B %Y"`; `now` is
`datetime.datetime.now()`.  The fallback branch sets the current timestamp
and an empty display string, and construction is total: no error escapes. -/
def Date.make (parse : PyStr → Option DateParts) (strftime : DateParts → PyStr)
    (now : DateParts) (date : PyStr) : Date :=
  match parse date with
  | some dt => ⟨dt, dt.year, dt.month, dt.day, strftime dt⟩
  | none => ⟨now, now.year, now.month, now.day, []⟩

/-- Errors the modelled code can raise. -/
inductive PyErr
  /-- `IndexError` raised by sequence indexing out of bounds. -/
  | indexOutOfRange
  /-- `raise IndexError` with no argument (`Article.add_contributor`). -/
  | indexErrorBare
  /-- `raise IndexError(msg)` (missing code repository). -/
  | indexErrorMsg (msg : PyStr)
deriving DecidableEq, Repr

/-- The message attached to an explicitly raised error, if any. -/
def PyErr.message : PyErr → Option PyStr
  | .indexErrorMsg m => some m
  | _ => none

/-- The `contact` attribute: initialised to `""`, possibly overwritten by a
`Contributor` (Python is dynamically typed, so the field is a sum). -/
inductive ContactVal
  | str (s : PyStr)
  | contrib (c : Contributor)
deriving DecidableEq, Repr

/-- The `Article` object: attributes set in `__init__` and mutated by
`parse`.  `code`/`data` start as `""` and are overwritten with `Repository`
records before construction succeeds; the initial `""` is modelled as
`none`. -/
structure Article where
  authors : List Contributor := []
  editors : List Contributor := []
  reviewers : List Contributor := []
  affiliations : List Affiliation := []
  code : Option Repository := none
  data : Option Repository := none
  contact : ContactVal := .str []
  authors_short : PyStr := []
  authors_abbrv : PyStr := []
  authors_full : PyStr := []
deriving DecidableEq, Repr

/-- One entry of the `authors:` section after `yaml.load`: `name` plus the
optional `orcid`/`email` (absent keys default to `""` via `.get`), and the
`affiliations` value, which is either a string or YAML `null` (`None`). -/
structure AuthorItem where
  name : PyStr
  orcid : PyStr
  email : PyStr
  affiliations : Option PyStr
deriving DecidableEq, Repr

/-- One entry of the `contributors:` section. -/
structure ContributorItem where
  role : PyStr
  name : PyStr
  orcid : PyStr
deriving DecidableEq, Repr

/-- One entry of the `affiliations:` section. -/
structure AffiliationItem where
  code : PyStr
  name : PyStr
  address : PyStr
deriving DecidableEq, Repr

/-- The flattened `code:`/`data:` repository sections. -/
structure RepoSection where
  url : PyStr
  doi : PyStr
  swh : PyStr
deriving DecidableEq, Repr

/-- The loaded YAML document, restricted to the sections whose processing
the claims are about.  The remaining sections (title, keywords, dates,
review, replication, article, journal) are copied by total string
operations — dates through the total `Date.make` above — and cannot alter
the fields modelled here. `code` is `none` when the document lacks the
mandatory `code:` section; `data` is the optional data repository. -/
structure Document where
  authors : List AuthorItem
  affiliations : List AffiliationItem
  contributors : List ContributorItem
  code : Option RepoSection
  data : Option RepoSection
deriving DecidableEq, Repr

/-- `Article.add_contributor(contributor)`. -/
def add_contributor (art : Article) (c : Contributor) : Except PyErr Article :=
  if c.role = "author".toList then .ok { art with authors := art.authors ++ [c] }
  else if c.role = "editor".toList then .ok { art with editors := art.editors ++ [c] }
  else if c.role = "reviewer".toList then .ok { art with reviewers := art.reviewers ++ [c] }
  else .error .indexErrorBare

/-- One iteration of the `for item in document["authors"]` loop of
`Article.parse`: nothing happens when `affiliations` is `None`; otherwise
the affiliation string is comma-split when longer than one character (the
`"*"` marker, when present, is removed — first occurrence — and the new
author is recorded as `self.contact`), and turned into its list of
characters otherwise. -/
def parse_author_item (art : Article) (item : AuthorItem) : Except PyErr Article :=
  match item.affiliations with
  | none => .ok art
  | some s =>
    if s.length > 1 then
      let affiliations := pySplit ',' s
      if "*".toList ∈ affiliations then
        let affiliations := affiliations.erase "*".toList
        match Contributor.make "author".toList item.name item.orcid item.email affiliations with
        | none => .error .indexOutOfRange
        | some author =>
          match add_contributor art author with
          | .error e => .error e
          | .ok art' => .ok { art' with contact := .contrib author }
      else
        match Contributor.make "author".toList item.name item.orcid item.email affiliations with
        | none => .error .indexOutOfRange
        | some author => add_contributor art author
    else
      let affiliations := s.map (fun c => [c])
      match Contributor.make "author".toList item.name item.orcid item.email affiliations with
      | none => .error .indexOutOfRange
      | some author => add_contributor art author

/-- The `for item in document["authors"]` loop. -/
def authors_loop : Article → List AuthorItem → Except PyErr Article
  | art, [] => .ok art
  | art, item :: rest =>
    match parse_author_item art item with
    | .error e => .error e
    | .ok art' => authors_loop art' rest

/-- The `for item in document["contributors"]` loop: builds
`Contributor(role, name, orcid)` (defaults: empty email, no affiliations)
and dispatches through `add_contributor`. -/
def contributors_loop : Article → List ContributorItem → Except PyErr Article
  | art, [] => .ok art
  | art, item :: rest =>
    match Contributor.make item.role item.name item.orcid [] [] with
    | none => .error .indexOutOfRange
    | some c =>
      match add_contributor art c with
      | .error e => .error e
      | .ok art' => contributors_loop art' rest

/-- `Article.parse(data)` for the modelled sections, in source order:
authors, affiliations, contributors, mandatory code repository (raising
`IndexError("Code repository not found")` when absent), optional data
repository. -/
def Article.parse (art : Article) (doc : Document) : Except PyErr Article :=
  match authors_loop art doc.authors with
  | .error e => .error e
  | .ok art =>
    let art := { art with affiliations :=
      art.affiliations ++ doc.affiliations.map (fun i => Affiliation.mk i.code i.name i.address) }
    match contributors_loop art doc.contributors with
    | .error e => .error e
    | .ok art =>
      match doc.code with
      | none => .error (.indexErrorMsg "Code repository not found".toList)
      | some c =>
        let art := { art with code := some ⟨"code".toList, c.url, c.doi, c.swh⟩ }
        let art := { art with data := some (match doc.data with
          | some d => ⟨"data".toList, d.url, d.doi, []⟩
          | none => ⟨"data".toList, [], [], []⟩) }
        .ok art

/-- `Article.__init__(data)`: parse, then build the three author list
strings with `get_author_lists`. -/
def article_init (doc : Document) : Except PyErr Article :=
  match Article.parse {} doc with
  | .error e => .error e
  | .ok art =>
    match get_author_lists art.authors with
    | none => .error .indexOutOfRange
    | some ls =>
      .ok { art with authors_short := ls.short, authors_abbrv := ls.abbreviated,
                     authors_full := ls.full }

/-- The joined author list described by the spec for each input length:
identity for one author, `", "`/`" and "` grammar for two or three, and
`" et al."` truncation beyond three. -/
def authorJoin : List PyStr → PyStr
  | [] => []
  | [a] => a
  | [a, b] => a ++ " and ".toList ++ b
  | [a, b, c] => a ++ ", ".toList ++ b ++ " and ".toList ++ c
  | a :: _ :: _ :: _ :: _ => a ++ " et al.".toList

/-- The length-dependent branch of `get_author_list` taken for a list of
`n` authors: `0` for the single-author branch, `1` for the two-or-three
branch, `2` for the `" et al."` branch. -/
def authorBranch (n : Nat) : Nat :=
  if n = 1 then 0 else if 1 < n ∧ n ≤ 3 then 1 else 2

/-- The last-name contract exactly as the spec words it: for comma form,
everything before the first comma, trimmed; for space form, the final
space-delimited token, unless it is an ordinal suffix, in which case the
last two tokens joined with a space; empty input gives the empty string. -/
def lastName_spec (name : PyStr) : PyStr :=
  if name = [] then []
  else if ',' ∈ name then pyStrip (name.takeWhile (fun c => c ≠ ','))
  else
    let toks := pySplit ' ' name
    match toks.getLast? with
    | none => []
    | some t =>
      if t ∈ SUFFIXES then
        match toks.dropLast.getLast? with
        | some s => s ++ " ".toList ++ t
        | none => t
      else t

/-- The given-name tokens that `get_abbrvname` abbreviates: after the comma
(stripped, space-split) in comma form; all tokens before the last-name
token(s) in space form. -/
def given_tokens (name : PyStr) : List PyStr :=
  if ',' ∈ name then pySplit ' ' (pyStrip ((pySplit ',' name).getD 1 []))
  else
    let parts := pySplit ' ' name
    if parts.getLastD [] ∈ SUFFIXES then parts.take (parts.length - 2)
    else parts.dropLast

/-- The last-name part that `get_abbrvname` appends after the initials. -/
def abbrv_last (name : PyStr) : PyStr :=
  if ',' ∈ name then (pySplit ',' name).headD []
  else
    let parts := pySplit ' ' name
    if parts.getLastD [] ∈ SUFFIXES then
      pyJoin " ".toList (parts.drop (parts.length - 2))
    else parts.getLastD []

/-- One initial as the spec words it: the uppercase first character
followed by a period; a token with internal hyphens has each
hyphen-separated part abbreviated and the results re-joined with
hyphens. -/
def spec_initial (tok : PyStr) : PyStr :=
  if '-' ∈ tok then
    pyJoin "-".toList ((pySplit '-' tok).map (fun p => pyUpper (p.take 1) ++ ".".toList))
  else pyUpper (tok.take 1) ++ ".".toList

/-- The abbreviated name exactly as the claim words it: the initials
joined with single spaces, then the last name appended after one space. -/
def abbrvname_claimed (name : PyStr) : PyStr :=
  pyJoin " ".toList ((given_tokens name).map spec_initial) ++ " ".toList ++ abbrv_last name

/-- The affiliation list stored for an author whose `affiliations` value is
the string `s`: comma-split (with the first `"*"` removed when present)
when longer than one character, else the list of its characters. -/
def author_affs (s : PyStr) : List PyStr :=
  if s.length > 1 then
    (if "*".toList ∈ pySplit ',' s then (pySplit ',' s).erase "*".toList
     else pySplit ',' s)
  else s.map (fun c => [c])

/-- The `Contributor` that the authors loop builds from one author entry
(`none` when the entry is skipped or its name breaks `get_abbrvname`). -/
def author_of (item : AuthorItem) : Option Contributor :=
  match item.affiliations with
  | none => none
  | some s => Contributor.make "author".toList item.name item.orcid item.email (author_affs s)

/-- Whether an author entry carries the contact marker that the code
notices: a comma-split affiliation string (length above one) containing
the token `"*"`. -/
def author_marked (item : AuthorItem) : Bool :=
  match item.affiliations with
  | none => false
  | some s => decide (s.length > 1) && decide ("*".toList ∈ pySplit ',' s)

/-- The roles `add_contributor` accepts. -/
def PyRoles : List PyStr := ["author".toList, "editor".toList, "reviewer".toList]

/-- A valid document in the sense of the spec's round-trip property: every
author entry that is processed has a name on which name formatting is
defined and yields a non-empty last name; contributor entries are editors
or reviewers with processable names; the mandatory code section is
present; and at least one author entry has a non-null affiliation value
(so the author list is non-empty). -/
def ValidDoc (doc : Document) : Prop :=
  (∀ a ∈ doc.authors, a.affiliations.isSome →
    (get_abbrvname a.name).isSome ∧ a.name ≠ [] ∧ get_lastname a.name ≠ []) ∧
  (∀ c ∈ doc.contributors,
    (get_abbrvname c.name).isSome ∧ (c.role = "editor".toList ∨ c.role = "reviewer".toList)) ∧
  doc.code.isSome ∧
  (∃ a ∈ doc.authors, a.affiliations.isSome)

instance (doc : Document) : Decidable (ValidDoc doc) := by
  unfold ValidDoc
  infer_instance

/-- A concrete valid document: two authors (one with a comma-split
affiliation list, one with a single-character affiliation), an editor and
a reviewer, and a code repository; no contact marker anywhere. -/
def doc_ok : Document :=
  { authors := [⟨"Jane Doe".toList, [], [], some "1,2".toList⟩,
                ⟨"Ben Doe".toList, [], [], some "2".toList⟩]
    affiliations := [⟨"1".toList, "Uni One".toList, []⟩]
    contributors := [⟨"editor".toList, "Ed Itor".toList, []⟩,
                     ⟨"reviewer".toList, "Re Viewer".toList, []⟩]
    code := some ⟨"https://example.org/code".toList, [], []⟩
    data := none }

/-- A concrete document in which two authors carry the `"*"` contact
marker, in this order: Ann Alpha first, Bob Beta second. -/
def doc_marked : Document :=
  { authors := [⟨"Ann Alpha".toList, [], [], some "1,*".toList⟩,
                ⟨"Bob Beta".toList, [], [], some "2,*".toList⟩]
    affiliations := []
    contributors := []
    code := some ⟨"https://example.org/code".toList, [], []⟩
    data := none }

/-- A concrete document whose only contributor entry has the unknown role
`"translator"`. -/
def doc_translator : Document :=
  { authors := [⟨"Jane Doe".toList, [], [], some "1,2".toList⟩]
    affiliations := []
    contributors := [⟨"translator".toList, "Tran Slator".toList, []⟩]
    code := some ⟨"https://example.org/code".toList, [], []⟩
    data := none }

/-- A concrete document with no author entries at all, but with a code
section and no contributor entries: every section the claims call
mandatory is fine, yet construction still dies in `get_author_lists`. -/
def doc_noauthors : Document :=
  { authors := []
    affiliations := []
    contributors := []
    code := some ⟨"https://example.org/code".toList, [], []⟩
    data := none }

/-- A concrete document lacking the mandatory code-repository section. -/
def doc_nocode : Document :=
  { authors := [⟨"Jane Doe".toList, [], [], some "1,2".toList⟩]
    affiliations := []
    contributors := []
    code := none
    data := none }

theorem pySplit_ne_nil (sep : Char) (l : PyStr) : pySplit sep l ≠ [] := by
  induction l with
  | nil => simp [pySplit]
  | cons c rest ih =>
    rw [pySplit]
    cases h : pySplit sep rest with
    | nil => simp
    | cons w ws => dsimp only; split <;> simp

theorem pySplit_headD (sep : Char) (l : PyStr) :
    (pySplit sep l).headD [] = l.takeWhile (fun c => c ≠ sep) := by
  induction l with
  | nil => rfl
  | cons c rest ih =>
    rw [pySplit]
    cases h : pySplit sep rest with
    | nil => exact absurd h (pySplit_ne_nil sep rest)
    | cons w ws =>
      have hw : w = rest.takeWhile (fun c => c ≠ sep) := by
        rw [← ih, h]; rfl
      by_cases hc : c = sep
      · subst hc; simp [List.takeWhile_cons]
      · simp [hc, List.takeWhile_cons, hw]

theorem pySplit_not_mem (sep : Char) (l : PyStr) (h : sep ∉ l) : pySplit sep l = [l] := by
  induction l with
  | nil => rfl
  | cons c rest ih =>
    have hc : ¬(c = sep) := fun e => h (e ▸ List.mem_cons_self c rest)
    have hr : sep ∉ rest := fun m => h (List.mem_cons_of_mem c m)
    rw [pySplit, ih hr]
    simp [hc]

theorem pyStrip_singleton (c : Char) (h : ¬ c.isWhitespace) : pyStrip [c] = [c] := by
  simp [pyStrip, List.dropWhile_cons, h]

theorem drop_sub_two (l : List PyStr) (s t : PyStr) :
    (l ++ [s, t]).drop ((l ++ [s, t]).length - 2) = [s, t] := by
  have hlen : (l ++ [s, t]).length - 2 = l.length := by simp
  rw [hlen]
  simp

theorem get_author_list_eq : ∀ (l : List PyStr), l ≠ [] →
    get_author_list l = some (authorJoin l)
  | [], h => absurd rfl h
  | [a], _ => rfl
  | [a, b], _ => rfl
  | [a, b, c], _ => rfl
  | a :: b :: c :: d :: rest, _ => by
    show get_author_list (a :: b :: c :: d :: rest) = some (a ++ " et al.".toList)
    rw [get_author_list]
    have h1 : ¬((a :: b :: c :: d :: rest).length = 1) := by simp
    have h2 : ¬(1 < (a :: b :: c :: d :: rest).length ∧
        (a :: b :: c :: d :: rest).length ≤ 3) := by
      simp only [List.length_cons]
      omega
    simp [h1, h2]

theorem authorJoin_ne_nil : ∀ (l : List PyStr), l ≠ [] → (∀ x ∈ l, x ≠ []) →
    authorJoin l ≠ []
  | [], h, _ => absurd rfl h
  | [a], _, ha => by simpa [authorJoin] using ha a (by simp)
  | [a, b], _, _ => by simp [authorJoin]
  | [a, b, c], _, _ => by simp [authorJoin]
  | a :: b :: c :: d :: rest, _, _ => by simp [authorJoin]

theorem abbrv_inner_eq : ∀ (parts : List PyStr) (acc : PyStr),
    (∀ p ∈ parts, ∃ c cs, p = c :: cs ∧ ¬ c.isWhitespace) →
    abbrv_inner acc parts =
      some (acc ++ (parts.map
        (fun p => (pyUpper (p.take 1) ++ ".".toList) ++ "-".toList)).flatten)
  | [], acc, _ => by simp [abbrv_inner]
  | part :: rest, acc, h => by
    obtain ⟨c, cs, rfl, hws⟩ := h part (by simp)
    rw [abbrv_inner]
    rw [abbrv_inner_eq rest _ (fun p hp => h p (by simp [hp]))]
    simp [pyStrip_singleton c hws, List.append_assoc]

theorem flatten_concat_dropLast (hy : Char) : ∀ (l : List PyStr), l ≠ [] →
    ((l.map (fun x => x ++ [hy])).flatten).dropLast = pyJoin [hy] l
  | [], h => absurd rfl h
  | [x], _ => by simp [pyJoin, List.dropLast_concat]
  | x :: y :: rest, _ => by
    have ih := flatten_concat_dropLast hy (y :: rest) (by simp)
    rw [List.map_cons, List.flatten_cons]
    have hne : (((y :: rest).map (fun x => x ++ [hy])).flatten) ≠ [] := by
      simp
    rw [List.dropLast_append_of_ne_nil _ hne, ih]
    show (x ++ [hy]) ++ pyJoin [hy] (y :: rest) = pyJoin [hy] (x :: y :: rest)
    rw [pyJoin]

theorem abbrv_outer_cons (acc tok : PyStr) (rest : List PyStr) :
    abbrv_outer acc (tok :: rest) =
      if '-' ∈ tok then
        match abbrv_inner acc (pySplit '-' tok) with
        | none => none
        | some s => abbrv_outer s.dropLast rest
      else
        match tok with
        | [] => none
        | c :: _ => abbrv_outer (acc ++ pyUpper (pyStrip [c]) ++ ".".toList) rest := by
  rfl

theorem abbrv_outer_eq : ∀ (toks : List PyStr) (acc : PyStr),
    (∀ tok ∈ toks, ∀ p ∈ pySplit '-' tok, ∃ c cs, p = c :: cs ∧ ¬ c.isWhitespace) →
    abbrv_outer acc toks = some (acc ++ (toks.map spec_initial).flatten)
  | [], acc, _ => by simp [abbrv_outer]
  | tok :: rest, acc, h => by
    rw [abbrv_outer_cons]
    by_cases hh : '-' ∈ tok
    · rw [if_pos hh]
      rw [abbrv_inner_eq (pySplit '-' tok) acc (h tok (by simp))]
      have hXeq : (pySplit '-' tok).map
            (fun p => (pyUpper (p.take 1) ++ ".".toList) ++ "-".toList)
          = ((pySplit '-' tok).map (fun p => pyUpper (p.take 1) ++ ".".toList)).map
              (fun x => x ++ ['-']) := by
        rw [List.map_map]; rfl
      have hmapne : (pySplit '-' tok).map (fun p => pyUpper (p.take 1) ++ ".".toList) ≠ [] := by
        simp [pySplit_ne_nil]
      have hXne : ((pySplit '-' tok).map
          (fun p => (pyUpper (p.take 1) ++ ".".toList) ++ "-".toList)).flatten ≠ [] := by
        rw [hXeq]
        cases hm : ((pySplit '-' tok).map (fun p => pyUpper (p.take 1) ++ ".".toList)) with
        | nil => exact absurd hm hmapne
        | cons w ws => simp
      dsimp only
      rw [List.dropLast_append_of_ne_nil _ hXne]
      rw [hXeq, flatten_concat_dropLast '-' _ hmapne]
      rw [abbrv_outer_eq rest _ (fun t ht => h t (by simp [ht]))]
      have hspec : spec_initial tok =
          pyJoin ['-'] ((pySplit '-' tok).map (fun p => pyUpper (p.take 1) ++ ".".toList)) := by
        rw [spec_initial, if_pos hh]; rfl
      rw [List.map_cons, List.flatten_cons, hspec]
      simp [List.append_assoc]
    · rw [if_neg hh]
      have htok : tok ∈ pySplit '-' tok := by
        rw [pySplit_not_mem _ _ hh]; simp
      obtain ⟨c, cs, rfl, hws⟩ := h _ (by simp) _ htok
      dsimp only
      rw [abbrv_outer_eq rest _ (fun t ht => h t (by simp [ht]))]
      have hspec : spec_initial (c :: cs) = pyUpper ((c :: cs).take 1) ++ ".".toList := by
        rw [spec_initial, if_neg hh]
      rw [List.map_cons, List.flatten_cons, hspec]
      simp [pyStrip_singleton c hws, List.append_assoc]

theorem get_abbrvname_outer (name : PyStr) (h0 : name ≠ []) :
    get_abbrvname name = match abbrv_outer [] (given_tokens name) with
      | none => none
      | some ab => some (ab ++ " ".toList ++ abbrv_last name) := by
  rw [get_abbrvname, if_neg h0]
  unfold given_tokens abbrv_last
  by_cases hc : ',' ∈ name
  · simp only [if_pos hc]
  · simp only [if_neg hc]
    by_cases hs : (pySplit ' ' name).getLastD [] ∈ SUFFIXES
    · simp only [if_pos hs]
    · simp only [if_neg hs]

theorem lastname_space_eq (toks : List PyStr) (h : toks ≠ []) :
    (if toks.getLastD [] ∈ SUFFIXES then
      pyJoin " ".toList (toks.drop (toks.length - 2))
     else toks.getLastD [])
    = match toks.getLast? with
      | none => []
      | some t =>
        if t ∈ SUFFIXES then
          match toks.dropLast.getLast? with
          | some s => s ++ " ".toList ++ t
          | none => t
        else t := by
  rcases List.eq_nil_or_concat toks with rfl | ⟨l0, t, rfl⟩
  · exact absurd rfl h
  rcases List.eq_nil_or_concat l0 with rfl | ⟨l1, s, rfl⟩
  · simp only [List.concat_eq_append, List.nil_append]
    by_cases hs : t ∈ SUFFIXES
    · simp [hs, pyJoin]
    · simp [hs]
  simp only [List.concat_eq_append]
  have hflat : (l1 ++ [s]) ++ [t] = l1 ++ [s, t] := by simp
  have hlast : ((l1 ++ [s]) ++ [t]).getLast? = some t := List.getLast?_concat _
  have hdl : ((l1 ++ [s]) ++ [t]).dropLast = l1 ++ [s] := List.dropLast_concat
  have hdl2 : (l1 ++ [s]).getLast? = some s := List.getLast?_concat _
  have hgd : ((l1 ++ [s]) ++ [t]).getLastD [] = t := List.getLastD_concat _ _ _
  rw [hlast, hdl, hdl2, hgd]
  dsimp only
  by_cases hs : t ∈ SUFFIXES
  · rw [if_pos hs, if_pos hs, hflat, drop_sub_two]
    rfl
  · rw [if_neg hs, if_neg hs]

theorem get_lastname_eq_spec (name : PyStr) : get_lastname name = lastName_spec name := by
  by_cases h0 : name = []
  · subst h0; rfl
  rw [get_lastname, lastName_spec, if_neg h0, if_neg h0]
  by_cases hc : ',' ∈ name
  · rw [if_pos hc, if_pos hc, pySplit_headD]
  · rw [if_neg hc, if_neg hc]
    exact lastname_space_eq (pySplit ' ' name) (pySplit_ne_nil ' ' name)

theorem get_abbrvname_ne_nil (name v : PyStr) (h0 : name ≠ [])
    (h : get_abbrvname name = some v) : v ≠ [] := by
  rw [get_abbrvname_outer name h0] at h
  cases hab : abbrv_outer [] (given_tokens name) with
  | none => rw [hab] at h; exact absurd h (by simp)
  | some ab =>
    rw [hab] at h
    simp only [Option.some.injEq] at h
    subst h
    simp

theorem Contributor.make_eq (role name orcid email : PyStr) (affs : List PyStr)
    (ab : PyStr) (h : get_abbrvname name = some ab) :
    Contributor.make role name orcid email affs =
      some ⟨role, name, orcid, email, affs, get_lastname name, ab⟩ := by
  rw [Contributor.make, h]

theorem Contributor.make_role (role name orcid email : PyStr) (affs : List PyStr)
    (c : Contributor) (h : Contributor.make role name orcid email affs = some c) :
    c.role = role := by
  rw [Contributor.make] at h
  cases hg : get_abbrvname name with
  | none => rw [hg] at h; exact absurd h (by simp)
  | some ab =>
    rw [hg] at h
    simp only [Option.some.injEq] at h
    subst h
    rfl

theorem add_contributor_author (art : Article) (c : Contributor)
    (h : c.role = "author".toList) :
    add_contributor art c = .ok { art with authors := art.authors ++ [c] } := by
  rw [add_contributor, if_pos h]

theorem add_contributor_editor (art : Article) (c : Contributor)
    (h0 : c.role ≠ "author".toList) (h : c.role = "editor".toList) :
    add_contributor art c = .ok { art with editors := art.editors ++ [c] } := by
  rw [add_contributor, if_neg h0, if_pos h]

theorem add_contributor_reviewer (art : Article) (c : Contributor)
    (h0 : c.role ≠ "author".toList) (h1 : c.role ≠ "editor".toList)
    (h : c.role = "reviewer".toList) :
    add_contributor art c = .ok { art with reviewers := art.reviewers ++ [c] } := by
  rw [add_contributor, if_neg h0, if_neg h1, if_pos h]

theorem add_contributor_bad (art : Article) (c : Contributor)
    (h0 : c.role ≠ "author".toList) (h1 : c.role ≠ "editor".toList)
    (h2 : c.role ≠ "reviewer".toList) :
    add_contributor art c = .error .indexErrorBare := by
  rw [add_contributor, if_neg h0, if_neg h1, if_neg h2]

theorem parse_author_item_eq (art : Article) (item : AuthorItem)
    (hwf : item.affiliations.isSome → (get_abbrvname item.name).isSome) :
    ∃ out, parse_author_item art item = .ok out ∧
      out.authors = art.authors ++ (author_of item).toList ∧
      out.editors = art.editors ∧ out.reviewers = art.reviewers ∧
      out.affiliations = art.affiliations ∧ out.code = art.code ∧ out.data = art.data ∧
      out.authors_short = art.authors_short ∧ out.authors_abbrv = art.authors_abbrv ∧
      out.authors_full = art.authors_full ∧
      out.contact = (if author_marked item then
          match author_of item with
          | some c => ContactVal.contrib c
          | none => art.contact
        else art.contact) := by
  cases haff : item.affiliations with
  | none =>
    refine ⟨art, ?_, ?_⟩
    · rw [parse_author_item, haff]
    · simp [author_of, author_marked, haff]
  | some s =>
    obtain ⟨ab, hab⟩ := Option.isSome_iff_exists.mp (hwf (by simp [haff]))
    by_cases hlen : s.length > 1
    · by_cases hstar : "*".toList ∈ pySplit ',' s
      · obtain ⟨c, hc⟩ : ∃ c, Contributor.make "author".toList item.name item.orcid
            item.email ((pySplit ',' s).erase "*".toList) = some c :=
          ⟨_, Contributor.make_eq _ _ _ _ _ ab hab⟩
        have hrole := Contributor.make_role _ _ _ _ _ _ hc
        have hao : author_of item = some c := by
          rw [author_of, haff]
          dsimp only
          rw [author_affs, if_pos hlen, if_pos hstar]
          exact hc
        have hmarked : author_marked item = true := by
          rw [author_marked, haff]
          dsimp only
          rw [decide_eq_true hlen, decide_eq_true hstar]
          rfl
        refine ⟨{ art with authors := art.authors ++ [c], contact := .contrib c }, ?_, ?_⟩
        · rw [parse_author_item, haff]
          dsimp only
          rw [if_pos hlen, if_pos hstar, hc]
          dsimp only
          rw [add_contributor_author art c hrole]
        · simp [hao, hmarked]
      · obtain ⟨c, hc⟩ : ∃ c, Contributor.make "author".toList item.name item.orcid
            item.email (pySplit ',' s) = some c :=
          ⟨_, Contributor.make_eq _ _ _ _ _ ab hab⟩
        have hrole := Contributor.make_role _ _ _ _ _ _ hc
        have hao : author_of item = some c := by
          rw [author_of, haff]
          dsimp only
          rw [author_affs, if_pos hlen, if_neg hstar]
          exact hc
        have hmarked : author_marked item = false := by
          rw [author_marked, haff]
          dsimp only
          rw [decide_eq_false hstar, Bool.and_false]
        refine ⟨{ art with authors := art.authors ++ [c] }, ?_, ?_⟩
        · rw [parse_author_item, haff]
          dsimp only
          rw [if_pos hlen, if_neg hstar, hc]
          dsimp only
          rw [add_contributor_author art c hrole]
        · simp [hao, hmarked]
    · obtain ⟨c, hc⟩ : ∃ c, Contributor.make "author".toList item.name item.orcid
          item.email (s.map (fun c => [c])) = some c :=
        ⟨_, Contributor.make_eq _ _ _ _ _ ab hab⟩
      have hrole := Contributor.make_role _ _ _ _ _ _ hc
      have hao : author_of item = some c := by
        rw [author_of, haff]
        dsimp only
        rw [author_affs, if_neg hlen]
        exact hc
      have hmarked : author_marked item = false := by
        rw [author_marked, haff]
        dsimp only
        rw [decide_eq_false hlen, Bool.false_and]
      refine ⟨{ art with authors := art.authors ++ [c] }, ?_, ?_⟩
      · rw [parse_author_item, haff]
        dsimp only
        rw [if_neg hlen, hc]
        dsimp only
        rw [add_contributor_author art c hrole]
      · simp [hao, hmarked]

theorem authors_loop_cons (art : Article) (item : AuthorItem) (rest : List AuthorItem) :
    authors_loop art (item :: rest) = match parse_author_item art item with
      | .error e => .error e
      | .ok art' => authors_loop art' rest := rfl

theorem author_marked_affiliations {i : AuthorItem} (h : author_marked i = true) :
    i.affiliations.isSome := by
  rw [author_marked] at h
  cases haff : i.affiliations with
  | none => rw [haff] at h; exact absurd h (by simp)
  | some s => rfl

theorem author_of_isSome {i : AuthorItem} (haff : i.affiliations.isSome)
    (hab : (get_abbrvname i.name).isSome) : (author_of i).isSome := by
  obtain ⟨s, hs⟩ := Option.isSome_iff_exists.mp haff
  obtain ⟨ab, habs⟩ := Option.isSome_iff_exists.mp hab
  rw [author_of, hs]
  dsimp only
  rw [Contributor.make_eq _ _ _ _ _ ab habs]
  rfl

theorem authors_loop_ok : ∀ (items : List AuthorItem) (art : Article),
    (∀ i ∈ items, i.affiliations.isSome → (get_abbrvname i.name).isSome) →
    ∃ art', authors_loop art items = .ok art' ∧
      art'.authors = art.authors ++ items.filterMap author_of ∧
      art'.editors = art.editors ∧ art'.reviewers = art.reviewers ∧
      art'.affiliations = art.affiliations ∧ art'.code = art.code ∧ art'.data = art.data ∧
      art'.authors_short = art.authors_short ∧ art'.authors_abbrv = art.authors_abbrv ∧
      art'.authors_full = art.authors_full ∧
      (items.filter author_marked = [] → art'.contact = art.contact) ∧
      (∀ i, (items.filter author_marked).getLast? = some i →
        ∃ c, author_of i = some c ∧ art'.contact = .contrib c)
  | [], art, _ => ⟨art, rfl, by simp, rfl, rfl, rfl, rfl, rfl, rfl, rfl, rfl,
      fun _ => rfl, by simp⟩
  | item :: rest, art, h => by
    obtain ⟨out, hstep, hauth, hed, hrev, haff, hcode, hdata, hs1, hs2, hs3, hcontact⟩ :=
      parse_author_item_eq art item (h item (by simp))
    obtain ⟨art', hloop, hauth', hed', hrev', haff', hcode', hdata', hs1', hs2', hs3',
        hcon1', hcon2'⟩ :=
      authors_loop_ok rest out (fun i hi => h i (by simp [hi]))
    refine ⟨art', ?_, ?_, ?_, ?_, ?_, ?_, ?_, ?_, ?_, ?_, ?_, ?_⟩
    · rw [authors_loop_cons, hstep]
      exact hloop
    · rw [hauth', hauth, List.append_assoc]
      congr 1
      cases hao : author_of item <;> simp [List.filterMap_cons, hao]
    · rw [hed', hed]
    · rw [hrev', hrev]
    · rw [haff', haff]
    · rw [hcode', hcode]
    · rw [hdata', hdata]
    · rw [hs1', hs1]
    · rw [hs2', hs2]
    · rw [hs3', hs3]
    · intro hfe
      rw [List.filter_cons] at hfe
      by_cases hm : author_marked item
      · rw [if_pos hm] at hfe
        exact absurd hfe (by simp)
      · rw [if_neg (by simpa using hm)] at hfe
        rw [hcon1' hfe, hcontact, if_neg (by simpa using hm)]
    · intro i hi
      rw [List.filter_cons] at hi
      by_cases hm : author_marked item
      · rw [if_pos hm] at hi
        cases hfr : rest.filter author_marked with
        | nil =>
          rw [hfr] at hi
          have hit : i = item := by
            simpa using hi.symm
          subst hit
          obtain ⟨c, hc⟩ := Option.isSome_iff_exists.mp
            (author_of_isSome (author_marked_affiliations hm)
              (h i (by simp) (author_marked_affiliations hm)))
          refine ⟨c, hc, ?_⟩
          rw [hcon1' hfr, hcontact, if_pos hm, hc]
        | cons w ws =>
          rw [hfr] at hi
          rw [List.getLast?_cons_cons] at hi
          exact hcon2' i (by rw [hfr]; exact hi)
      · rw [if_neg (by simpa using hm)] at hi
        exact hcon2' i hi

theorem contributors_loop_cons (art : Article) (item : ContributorItem)
    (rest : List ContributorItem) :
    contributors_loop art (item :: rest) =
      match Contributor.make item.role item.name item.orcid [] [] with
      | none => .error .indexOutOfRange
      | some c =>
        match add_contributor art c with
        | .error e => .error e
        | .ok art' => contributors_loop art' rest := rfl

theorem contributors_loop_ok : ∀ (items : List ContributorItem) (art : Article),
    (∀ i ∈ items, (get_abbrvname i.name).isSome) →
    (∀ i ∈ items, i.role ∈ PyRoles) →
    ∃ art', contributors_loop art items = .ok art' ∧
      (∃ extra, art'.authors = art.authors ++ extra ∧
        ((∀ i ∈ items, i.role ≠ "author".toList) → extra = [])) ∧
      art'.affiliations = art.affiliations ∧ art'.code = art.code ∧
      art'.data = art.data ∧ art'.contact = art.contact ∧
      art'.authors_short = art.authors_short ∧ art'.authors_abbrv = art.authors_abbrv ∧
      art'.authors_full = art.authors_full
  | [], art, _, _ => ⟨art, rfl, ⟨[], by simp, fun _ => rfl⟩, rfl, rfl, rfl, rfl,
      rfl, rfl, rfl⟩
  | item :: rest, art, hwf, hroles => by
    obtain ⟨ab, hab⟩ := Option.isSome_iff_exists.mp (hwf item (by simp))
    have hmk := Contributor.make_eq item.role item.name item.orcid [] [] ab hab
    have hrole : item.role ∈ PyRoles := hroles item (by simp)
    rw [PyRoles] at hrole
    simp only [List.mem_cons, List.mem_singleton, List.not_mem_nil, or_false] at hrole
    rcases hrole with hr | hr | hr
    · obtain ⟨art', hloop, ⟨extra, hea, _⟩, haff', hcode', hdata', hcon', h1', h2', h3'⟩ :=
        contributors_loop_ok rest
          { art with authors := art.authors ++
            [⟨item.role, item.name, item.orcid, [], [], get_lastname item.name, ab⟩] }
          (fun i hi => hwf i (by simp [hi])) (fun i hi => hroles i (by simp [hi]))
      refine ⟨art', ?_, ⟨(⟨item.role, item.name, item.orcid, [], [],
          get_lastname item.name, ab⟩ : Contributor) :: extra, ?_, ?_⟩, haff', hcode',
          hdata', hcon', h1', h2', h3'⟩
      · rw [contributors_loop_cons, hmk]
        dsimp only
        rw [add_contributor_author _ _ hr]
        exact hloop
      · rw [hea]
        simp
      · intro hno
        exact absurd hr (hno item (by simp))
    · obtain ⟨art', hloop, ⟨extra, hea, hex⟩, haff', hcode', hdata', hcon', h1', h2', h3'⟩ :=
        contributors_loop_ok rest
          { art with editors := art.editors ++
            [⟨item.role, item.name, item.orcid, [], [], get_lastname item.name, ab⟩] }
          (fun i hi => hwf i (by simp [hi])) (fun i hi => hroles i (by simp [hi]))
      have hne : item.role ≠ "author".toList := by rw [hr]; decide
      refine ⟨art', ?_, ⟨extra, by simpa using hea, ?_⟩, haff', hcode', hdata',
          hcon', h1', h2', h3'⟩
      · rw [contributors_loop_cons, hmk]
        dsimp only
        rw [add_contributor_editor _ _ hne hr]
        exact hloop
      · intro hno
        exact hex (fun i hi => hno i (by simp [hi]))
    · obtain ⟨art', hloop, ⟨extra, hea, hex⟩, haff', hcode', hdata', hcon', h1', h2', h3'⟩ :=
        contributors_loop_ok rest
          { art with reviewers := art.reviewers ++
            [⟨item.role, item.name, item.orcid, [], [], get_lastname item.name, ab⟩] }
          (fun i hi => hwf i (by simp [hi])) (fun i hi => hroles i (by simp [hi]))
      have hne : item.role ≠ "author".toList := by rw [hr]; decide
      have hne2 : item.role ≠ "editor".toList := by rw [hr]; decide
      refine ⟨art', ?_, ⟨extra, by simpa using hea, ?_⟩, haff', hcode', hdata',
          hcon', h1', h2', h3'⟩
      · rw [contributors_loop_cons, hmk]
        dsimp only
        rw [add_contributor_reviewer _ _ hne hne2 hr]
        exact hloop
      · intro hno
        exact hex (fun i hi => hno i (by simp [hi]))

theorem contributors_loop_fail : ∀ (items : List ContributorItem) (art : Article),
    (∀ i ∈ items, (get_abbrvname i.name).isSome) →
    (∃ i ∈ items, i.role ∉ PyRoles) →
    contributors_loop art items = .error .indexErrorBare
  | [], _, _, hbad => by
    obtain ⟨i, hi, _⟩ := hbad
    exact absurd hi (by simp)
  | item :: rest, art, hwf, hbad => by
    obtain ⟨ab, hab⟩ := Option.isSome_iff_exists.mp (hwf item (by simp))
    have hmk := Contributor.make_eq item.role item.name item.orcid [] [] ab hab
    by_cases hrole : item.role ∈ PyRoles
    · have hbad' : ∃ i ∈ rest, i.role ∉ PyRoles := by
        obtain ⟨i, hi, hb⟩ := hbad
        rcases List.mem_cons.mp hi with rfl | hi'
        · exact absurd hrole hb
        · exact ⟨i, hi', hb⟩
      rw [PyRoles] at hrole
      simp only [List.mem_cons, List.mem_singleton, List.not_mem_nil, or_false] at hrole
      rw [contributors_loop_cons, hmk]
      dsimp only
      rcases hrole with hr | hr | hr
      · rw [add_contributor_author art
          ⟨item.role, item.name, item.orcid, [], [], get_lastname item.name, ab⟩
          (by simpa using hr)]
        exact contributors_loop_fail rest _ (fun i hi => hwf i (by simp [hi])) hbad'
      · rw [add_contributor_editor art
          ⟨item.role, item.name, item.orcid, [], [], get_lastname item.name, ab⟩
          (by simp only []; rw [hr]; decide) (by simpa using hr)]
        exact contributors_loop_fail rest _ (fun i hi => hwf i (by simp [hi])) hbad'
      · rw [add_contributor_reviewer art
          ⟨item.role, item.name, item.orcid, [], [], get_lastname item.name, ab⟩
          (by simp only []; rw [hr]; decide) (by simp only []; rw [hr]; decide)
          (by simpa using hr)]
        exact contributors_loop_fail rest _ (fun i hi => hwf i (by simp [hi])) hbad'
    · rw [PyRoles] at hrole
      simp only [List.mem_cons, List.mem_singleton, List.not_mem_nil, or_false,
        not_or] at hrole
      obtain ⟨h1, h2, h3⟩ := hrole
      rw [contributors_loop_cons, hmk]
      dsimp only
      rw [add_contributor_bad art
        ⟨item.role, item.name, item.orcid, [], [], get_lastname item.name, ab⟩ h1 h2 h3]

theorem parse_ok (doc : Document) (art : Article)
    (hA : ∀ a ∈ doc.authors, a.affiliations.isSome → (get_abbrvname a.name).isSome)
    (hC : ∀ c ∈ doc.contributors, (get_abbrvname c.name).isSome)
    (hroles : ∀ c ∈ doc.contributors, c.role ∈ PyRoles)
    (hcode : doc.code.isSome) :
    ∃ art', Article.parse art doc = .ok art' ∧
      (∃ extra, art'.authors = art.authors ++ doc.authors.filterMap author_of ++ extra ∧
        ((∀ c ∈ doc.contributors, c.role ≠ "author".toList) → extra = [])) ∧
      art'.authors_short = art.authors_short ∧
      art'.authors_abbrv = art.authors_abbrv ∧
      art'.authors_full = art.authors_full ∧
      (doc.authors.filter author_marked = [] → art'.contact = art.contact) ∧
      (∀ i, (doc.authors.filter author_marked).getLast? = some i →
        ∃ c, author_of i = some c ∧ art'.contact = .contrib c) := by
  obtain ⟨a1, hl1, ha1, he1, hr1, haf1, hc1, hd1, hs11, hs12, hs13, hcon1, hcon2⟩ :=
    authors_loop_ok doc.authors art hA
  obtain ⟨a3, hl3, ⟨extra, hea, hex⟩, haf3, hc3, hd3, hcon3, h31, h32, h33⟩ :=
    contributors_loop_ok doc.contributors
      { a1 with affiliations := a1.affiliations ++
          doc.affiliations.map (fun i => Affiliation.mk i.code i.name i.address) }
      hC hroles
  obtain ⟨cs, hcs⟩ := Option.isSome_iff_exists.mp hcode
  have hea' : a3.authors = a1.authors ++ extra := by simpa using hea
  have hcon3' : a3.contact = a1.contact := by simpa using hcon3
  have h31' : a3.authors_short = a1.authors_short := by simpa using h31
  have h32' : a3.authors_abbrv = a1.authors_abbrv := by simpa using h32
  have h33' : a3.authors_full = a1.authors_full := by simpa using h33
  refine ⟨{ a3 with
      code := some ⟨"code".toList, cs.url, cs.doi, cs.swh⟩
      data := some (match doc.data with
        | some d => ⟨"data".toList, d.url, d.doi, []⟩
        | none => ⟨"data".toList, [], [], []⟩) }, ?_, ⟨extra, ?_, hex⟩, ?_, ?_, ?_, ?_, ?_⟩
  · rw [Article.parse, hl1]
    dsimp only
    rw [hl3]
    dsimp only
    rw [hcs]
  · show a3.authors = art.authors ++ doc.authors.filterMap author_of ++ extra
    rw [hea', ha1]
  · show a3.authors_short = art.authors_short
    rw [h31', hs11]
  · show a3.authors_abbrv = art.authors_abbrv
    rw [h32', hs12]
  · show a3.authors_full = art.authors_full
    rw [h33', hs13]
  · intro hfe
    show a3.contact = art.contact
    rw [hcon3', hcon1 hfe]
  · intro i hi
    obtain ⟨c, hc, hcon⟩ := hcon2 i hi
    exact ⟨c, hc, by show a3.contact = _; rw [hcon3', hcon]⟩

theorem get_author_lists_eq (authors : List Contributor) (h : authors ≠ []) :
    get_author_lists authors = some ⟨authorJoin (authors.map (fun a => a.lastname)),
      authorJoin (authors.map (fun a => a.abbrvname)),
      authorJoin (authors.map (fun a => a.name))⟩ := by
  have h1 : authors.map (fun a : Contributor => a.lastname) ≠ [] := by simpa using h
  have h2 : authors.map (fun a : Contributor => a.abbrvname) ≠ [] := by simpa using h
  have h3 : authors.map (fun a : Contributor => a.name) ≠ [] := by simpa using h
  rw [get_author_lists, get_author_list_eq _ h1]
  dsimp only
  rw [get_author_list_eq _ h2]
  dsimp only
  rw [get_author_list_eq _ h3]

theorem article_init_ok_general (doc : Document)
    (hA : ∀ a ∈ doc.authors, a.affiliations.isSome → (get_abbrvname a.name).isSome)
    (hC : ∀ c ∈ doc.contributors, (get_abbrvname c.name).isSome)
    (hroles : ∀ c ∈ doc.contributors, c.role ∈ PyRoles)
    (hcode : doc.code.isSome)
    (hne : doc.authors.filterMap author_of ≠ []) :
    ∃ art, article_init doc = .ok art := by
  obtain ⟨p, hp, ⟨extra, hpa, _⟩, _, _, _, _, _⟩ :=
    parse_ok doc {} hA hC hroles hcode
  have hpne : p.authors ≠ [] := by
    intro hcontra
    rw [hpa] at hcontra
    have h2 := List.append_eq_nil.mp hcontra
    exact hne (by simpa using h2.1)
  refine ⟨{ p with
      authors_short := authorJoin (p.authors.map (fun a => a.lastname))
      authors_abbrv := authorJoin (p.authors.map (fun a => a.abbrvname))
      authors_full := authorJoin (p.authors.map (fun a => a.name)) }, ?_⟩
  rw [article_init, hp]
  dsimp only
  rw [get_author_lists_eq p.authors hpne]

theorem Contributor.make_fields (role name orcid email : PyStr) (affs : List PyStr)
    (c : Contributor) (h : Contributor.make role name orcid email affs = some c) :
    c.role = role ∧ c.name = name ∧ c.lastname = get_lastname name ∧
    get_abbrvname name = some c.abbrvname ∧ c.affiliations = affs := by
  rw [Contributor.make] at h
  cases hg : get_abbrvname name with
  | none => rw [hg] at h; exact absurd h (by simp)
  | some ab =>
    rw [hg] at h
    simp only [Option.some.injEq] at h
    subst h
    exact ⟨rfl, rfl, rfl, rfl, rfl⟩

theorem author_of_fields (a : AuthorItem) (c : Contributor) (h : author_of a = some c) :
    a.affiliations.isSome ∧ c.name = a.name ∧ c.lastname = get_lastname a.name ∧
    get_abbrvname a.name = some c.abbrvname := by
  cases haff : a.affiliations with
  | none => rw [author_of, haff] at h; exact absurd h (by simp)
  | some s =>
    rw [author_of, haff] at h
    dsimp only at h
    obtain ⟨_, h2, h3, h4, _⟩ := Contributor.make_fields _ _ _ _ _ _ h
    exact ⟨rfl, h2, h3, h4⟩

theorem article_init_ok_valid (doc : Document) (h : ValidDoc doc) :
    ∃ art, article_init doc = .ok art ∧
      art.authors = doc.authors.filterMap author_of ∧
      art.authors_short = authorJoin (art.authors.map (fun a => a.lastname)) ∧
      art.authors_abbrv = authorJoin (art.authors.map (fun a => a.abbrvname)) ∧
      art.authors_full = authorJoin (art.authors.map (fun a => a.name)) ∧
      (doc.authors.filter author_marked = [] → art.contact = .str []) ∧
      (∀ i, (doc.authors.filter author_marked).getLast? = some i →
        ∃ c, author_of i = some c ∧ art.contact = .contrib c) := by
  obtain ⟨hA, hC, hcode, hN⟩ := h
  have hA' : ∀ a ∈ doc.authors, a.affiliations.isSome → (get_abbrvname a.name).isSome :=
    fun a ha hs => (hA a ha hs).1
  have hC' : ∀ c ∈ doc.contributors, (get_abbrvname c.name).isSome :=
    fun c hc => (hC c hc).1
  have hroles : ∀ c ∈ doc.contributors, c.role ∈ PyRoles := by
    intro c hc
    rcases (hC c hc).2 with hr | hr <;> simp [PyRoles, hr]
  have hnoauth : ∀ c ∈ doc.contributors, c.role ≠ "author".toList := by
    intro c hc
    rcases (hC c hc).2 with hr | hr <;> rw [hr] <;> decide
  have hfm : doc.authors.filterMap author_of ≠ [] := by
    obtain ⟨a, ha, hs⟩ := hN
    obtain ⟨c, hc⟩ := Option.isSome_iff_exists.mp (author_of_isSome hs (hA' a ha hs))
    exact List.ne_nil_of_mem (List.mem_filterMap.mpr ⟨a, ha, hc⟩)
  obtain ⟨p, hp, ⟨extra, hpa, hex⟩, hs1, hs2, hs3, hcon1, hcon2⟩ :=
    parse_ok doc {} hA' hC' hroles hcode
  have hpauth : p.authors = doc.authors.filterMap author_of := by
    rw [hpa, hex hnoauth]
    simp
  have hpne : p.authors ≠ [] := by rw [hpauth]; exact hfm
  refine ⟨{ p with
      authors_short := authorJoin (p.authors.map (fun a => a.lastname))
      authors_abbrv := authorJoin (p.authors.map (fun a => a.abbrvname))
      authors_full := authorJoin (p.authors.map (fun a => a.name)) }, ?_, hpauth,
      rfl, rfl, rfl, ?_, ?_⟩
  · rw [article_init, hp]
    dsimp only
    rw [get_author_lists_eq p.authors hpne]
  · intro hfe
    show p.contact = _
    simpa using hcon1 hfe
  · intro i hi
    obtain ⟨c, hc, hcon⟩ := hcon2 i hi
    exact ⟨c, hc, by show p.contact = _; rw [hcon]⟩

theorem parse_fail_role (doc : Document) (art : Article)
    (hA : ∀ a ∈ doc.authors, a.affiliations.isSome → (get_abbrvname a.name).isSome)
    (hC : ∀ c ∈ doc.contributors, (get_abbrvname c.name).isSome)
    (hbad : ∃ c ∈ doc.contributors, c.role ∉ PyRoles) :
    Article.parse art doc = .error .indexErrorBare := by
  obtain ⟨a1, hl1, _⟩ := authors_loop_ok doc.authors art hA
  rw [Article.parse, hl1]
  dsimp only
  rw [contributors_loop_fail doc.contributors _ hC hbad]

theorem parse_fail_code (doc : Document) (art : Article)
    (hA : ∀ a ∈ doc.authors, a.affiliations.isSome → (get_abbrvname a.name).isSome)
    (hC : ∀ c ∈ doc.contributors, (get_abbrvname c.name).isSome)
    (hroles : ∀ c ∈ doc.contributors, c.role ∈ PyRoles)
    (hcode : doc.code = none) :
    Article.parse art doc = .error (.indexErrorMsg "Code repository not found".toList) := by
  obtain ⟨a1, hl1, _⟩ := authors_loop_ok doc.authors art hA
  obtain ⟨a3, hl3, _⟩ := contributors_loop_ok doc.contributors
    { a1 with affiliations := a1.affiliations ++
        doc.affiliations.map (fun i => Affiliation.mk i.code i.name i.address) }
    hC hroles
  rw [Article.parse, hl1]
  dsimp only
  rw [hl3]
  dsimp only
  rw [hcode]

theorem article_init_fail_role (doc : Document)
    (hA : ∀ a ∈ doc.authors, a.affiliations.isSome → (get_abbrvname a.name).isSome)
    (hC : ∀ c ∈ doc.contributors, (get_abbrvname c.name).isSome)
    (hbad : ∃ c ∈ doc.contributors, c.role ∉ PyRoles) :
    article_init doc = .error .indexErrorBare := by
  rw [article_init, parse_fail_role doc {} hA hC hbad]

theorem article_init_fail_code (doc : Document)
    (hA : ∀ a ∈ doc.authors, a.affiliations.isSome → (get_abbrvname a.name).isSome)
    (hC : ∀ c ∈ doc.contributors, (get_abbrvname c.name).isSome)
    (hroles : ∀ c ∈ doc.contributors, c.role ∈ PyRoles)
    (hcode : doc.code = none) :
    article_init doc = .error (.indexErrorMsg "Code repository not found".toList) := by
  rw [article_init, parse_fail_code doc {} hA hC hroles hcode]

/-- Boundary of the failure characterization: a document with a code
section, no contributors, and an EMPTY author list still fails —
`get_author_lists` reaches `get_author_list []`, whose `else` branch
indexes the empty list.  So "fails exactly when the code section is
missing or a role is invalid" cannot hold unconditionally; it needs the
non-empty-author-list (and processable-names) scope. -/
theorem article_init_no_authors_raises :
    article_init doc_noauthors = .error .indexOutOfRange := rfl

/-- C1: for every non-empty list of author strings, `get_author_list`
returns the single element unchanged (N = 1); the elements joined with
", " for all but the last pair and " and " between the final two
(N = 2 or 3); and the first element followed by " et al." with all other
elements dropped (N > 3) — the cases `authorJoin` spells out. -/
theorem c1_get_author_list_nonempty (l : List PyStr) (h : l ≠ []) :
    get_author_list l = some (authorJoin l) :=
  get_author_list_eq l h

/-- C1 witness: the theorem applied to a concrete four-element list. -/
theorem c1_get_author_list_nonempty_witness :
    get_author_list ["A".toList, "B".toList, "C".toList, "D".toList]
      = some (authorJoin ["A".toList, "B".toList, "C".toList, "D".toList]) :=
  c1_get_author_list_nonempty ["A".toList, "B".toList, "C".toList, "D".toList]
    (by decide)

/-- C2: contrary to the claim (and the spec's "N = 0: empty string"), on
the empty author list the `else` branch of `get_author_list` IS reached
and `authors[0]` raises `IndexError` (modelled as `none`); no empty
string is returned.  The zero-author error message in `yaml-to-latex.py`
is unreachable because `Article.__init__` already dies here. -/
theorem c2_get_author_list_empty_raises : get_author_list [] = none := rfl

/-- C3 counterexample: at "Nicolas P. Rougier" the code produces
"N.P. Rougier" while the claim's "initials joined with single spaces"
reading (`abbrvname_claimed`) prescribes "N. P. Rougier"; they differ. -/
theorem c3_initials_not_space_joined :
    get_abbrvname "Nicolas P. Rougier".toList = some "N.P. Rougier".toList ∧
    abbrvname_claimed "Nicolas P. Rougier".toList = "N. P. Rougier".toList ∧
    get_abbrvname "Nicolas P. Rougier".toList
      ≠ some (abbrvname_claimed "Nicolas P. Rougier".toList) := by
  refine ⟨by decide, by decide, by decide⟩

/-- C3 (amended): for every non-empty name whose given-name tokens (and
their hyphen-separated parts) are non-empty and do not begin with
whitespace, `get_abbrvname` produces one initial per token — uppercase
first character followed by a period, a hyphenated token abbreviated
part-by-part and re-joined with hyphens (`spec_initial`) — with the
initials concatenated directly (no separator between them), and the last
name appended after one space. -/
theorem c3_get_abbrvname_concat_initials (name : PyStr) (h0 : name ≠ [])
    (h : ∀ tok ∈ given_tokens name, ∀ p ∈ pySplit '-' tok,
      p ≠ [] ∧ ¬ (p.headD ' ').isWhitespace) :
    get_abbrvname name =
      some (((given_tokens name).map spec_initial).flatten ++ " ".toList
        ++ abbrv_last name) := by
  have h' : ∀ tok ∈ given_tokens name, ∀ p ∈ pySplit '-' tok,
      ∃ c cs, p = c :: cs ∧ ¬ c.isWhitespace := by
    intro tok ht p hp
    obtain ⟨hne, hws⟩ := h tok ht p hp
    cases p with
    | nil => exact absurd rfl hne
    | cons c cs => exact ⟨c, cs, rfl, by simpa using hws⟩
  rw [get_abbrvname_outer name h0, abbrv_outer_eq (given_tokens name) [] h']
  rfl

/-- C3 witness: the amended theorem applied to the hyphenated name. -/
theorem c3_get_abbrvname_concat_initials_witness :
    get_abbrvname "Jean-Paul Martin".toList =
      some (((given_tokens "Jean-Paul Martin".toList).map spec_initial).flatten
        ++ " ".toList ++ abbrv_last "Jean-Paul Martin".toList) :=
  c3_get_abbrvname_concat_initials "Jean-Paul Martin".toList (by decide) (by decide)

/-- C4: the three concrete abbreviated-name examples from the spec, and
the empty string mapping to the empty string. -/
theorem c4_get_abbrvname_examples :
    get_abbrvname "Rougier, Nicolas P.".toList = some "N.P. Rougier".toList ∧
    get_abbrvname "Kenneth E. Schackart III".toList
      = some "K.E. Schackart III".toList ∧
    get_abbrvname "Jean-Paul Martin".toList = some "J.-P. Martin".toList ∧
    get_abbrvname [] = some [] := by
  refine ⟨by decide, by decide, by decide, rfl⟩

/-- C5: `get_lastname` agrees everywhere with the spec's description
(`lastName_spec`): empty input gives the empty string; a comma-containing
name gives everything before the first comma, trimmed, with suffix
merging never applied; a space-separated name gives the final token,
unless that token is an ordinal suffix, in which case the last two tokens
joined with a space. -/
theorem c5_get_lastname_meets_spec (name : PyStr) :
    get_lastname name = lastName_spec name :=
  get_lastname_eq_spec name

/-- C8: for every date string the external parser cannot handle (`parse`
returns `none`, covering any exception of `dateutil.parser.parse` under
the bare `except:`), `Date.__init__` recovers locally: the result is
built from the current timestamp with an empty textual display string,
and `Date.make` is total, so no error reaches the caller. -/
theorem c8_date_fallback (parse : PyStr → Option DateParts)
    (strftime : DateParts → PyStr) (now : DateParts) (s : PyStr)
    (h : parse s = none) :
    Date.make parse strftime now s = ⟨now, now.year, now.month, now.day, []⟩ := by
  rw [Date.make, h]

/-- C8 witness: the theorem applied to a parser that rejects everything. -/
theorem c8_date_fallback_witness :
    Date.make (fun _ => none) (fun _ => []) ⟨2026, 10, 12⟩ "not a date".toList =
      ⟨⟨2026, 10, 12⟩, 2026, 10, 12, []⟩ :=
  c8_date_fallback (fun _ => none) (fun _ => []) ⟨2026, 10, 12⟩ "not a date".toList rfl

/-- C6: for every valid document (`ValidDoc`, non-empty author list
included) model construction succeeds; the three author-list fields are
each produced by the same joining function `get_author_list`, applied to
the three parallel sequences (last names, abbreviated names, full names)
drawn from the same author sequence, which is exactly the document's
author entries in order of appearance (never re-sorted); all three
strings are non-empty; and the same length-dependent branch
(`authorBranch`) is taken for all three. -/
theorem c6_author_lists_round_trip (doc : Document) (h : ValidDoc doc) :
    ∃ art, article_init doc = .ok art ∧
      art.authors = doc.authors.filterMap author_of ∧
      get_author_list (art.authors.map (fun a => a.lastname))
        = some art.authors_short ∧
      get_author_list (art.authors.map (fun a => a.abbrvname))
        = some art.authors_abbrv ∧
      get_author_list (art.authors.map (fun a => a.name))
        = some art.authors_full ∧
      art.authors_short ≠ [] ∧ art.authors_abbrv ≠ [] ∧ art.authors_full ≠ [] ∧
      authorBranch (art.authors.map (fun a => a.lastname)).length
        = authorBranch (art.authors.map (fun a => a.abbrvname)).length ∧
      authorBranch (art.authors.map (fun a => a.abbrvname)).length
        = authorBranch (art.authors.map (fun a => a.name)).length := by
  obtain ⟨art, hinit, hauth, hs, ha, hf, _, _⟩ := article_init_ok_valid doc h
  have hne : art.authors ≠ [] := by
    rw [hauth]
    obtain ⟨a, ha', hs'⟩ := h.2.2.2
    obtain ⟨c, hc⟩ := Option.isSome_iff_exists.mp
      (author_of_isSome hs' (h.1 a ha' hs').1)
    exact List.ne_nil_of_mem (List.mem_filterMap.mpr ⟨a, ha', hc⟩)
  have hel : ∀ c ∈ art.authors, c.lastname ≠ [] ∧ c.abbrvname ≠ [] ∧ c.name ≠ [] := by
    intro c hc
    rw [hauth] at hc
    obtain ⟨a, ha', hao⟩ := List.mem_filterMap.mp hc
    obtain ⟨haffs, hname, hlast, habbrv⟩ := author_of_fields a c hao
    obtain ⟨habs, hnn, hln⟩ := h.1 a ha' haffs
    exact ⟨by rw [hlast]; exact hln,
      get_abbrvname_ne_nil a.name c.abbrvname hnn habbrv,
      by rw [hname]; exact hnn⟩
  have hm1 : art.authors.map (fun a => a.lastname) ≠ [] := by simpa using hne
  have hm2 : art.authors.map (fun a => a.abbrvname) ≠ [] := by simpa using hne
  have hm3 : art.authors.map (fun a => a.name) ≠ [] := by simpa using hne
  refine ⟨art, hinit, hauth, ?_, ?_, ?_, ?_, ?_, ?_, by simp, by simp⟩
  · rw [get_author_list_eq _ hm1, hs]
  · rw [get_author_list_eq _ hm2, ha]
  · rw [get_author_list_eq _ hm3, hf]
  · rw [hs]
    refine authorJoin_ne_nil _ hm1 ?_
    intro x hx
    obtain ⟨c, hc, rfl⟩ := List.mem_map.mp hx
    exact (hel c hc).1
  · rw [ha]
    refine authorJoin_ne_nil _ hm2 ?_
    intro x hx
    obtain ⟨c, hc, rfl⟩ := List.mem_map.mp hx
    exact (hel c hc).2.1
  · rw [hf]
    refine authorJoin_ne_nil _ hm3 ?_
    intro x hx
    obtain ⟨c, hc, rfl⟩ := List.mem_map.mp hx
    exact (hel c hc).2.2

/-- C6 witness: the round-trip theorem applied to `doc_ok`. -/
theorem c6_author_lists_round_trip_witness :
    ∃ art, article_init doc_ok = .ok art ∧
      art.authors = doc_ok.authors.filterMap author_of ∧
      get_author_list (art.authors.map (fun a => a.lastname))
        = some art.authors_short ∧
      get_author_list (art.authors.map (fun a => a.abbrvname))
        = some art.authors_abbrv ∧
      get_author_list (art.authors.map (fun a => a.name))
        = some art.authors_full ∧
      art.authors_short ≠ [] ∧ art.authors_abbrv ≠ [] ∧ art.authors_full ≠ [] ∧
      authorBranch (art.authors.map (fun a => a.lastname)).length
        = authorBranch (art.authors.map (fun a => a.abbrvname)).length ∧
      authorBranch (art.authors.map (fun a => a.abbrvname)).length
        = authorBranch (art.authors.map (fun a => a.name)).length :=
  c6_author_lists_round_trip doc_ok (by decide)

/-- C7 counterexample: the document whose only contributor entry has role
"translator" makes construction fail with a bare `IndexError` that
carries NO message naming the invalid role, contrary to the claim's
"clear message … rather than an internal trace" part. -/
theorem c7_bad_role_error_has_no_message :
    article_init doc_translator = .error .indexErrorBare ∧
    PyErr.message .indexErrorBare = none :=
  ⟨rfl, rfl⟩

/-- C7 (amended): for every document in scope — every author entry with a
non-null affiliations value and every contributor entry carries a name the
abbreviation step can process, and at least one author entry has a
non-null affiliations value (so the parsed author list is non-empty) —
model construction succeeds exactly when the code section is present and
every contributor role is in {author, editor, reviewer}; an invalid role
aborts the whole parse with a bare `IndexError` carrying no message
naming the role, while a missing code section aborts with
`IndexError("Code repository not found")`, whose message names the
missing section.  The scope is forced: outside it construction also
fails for unrelated reasons (`article_init_no_authors_raises`). -/
theorem c7_article_init_fails_iff (doc : Document)
    (hA : ∀ a ∈ doc.authors, a.affiliations.isSome → (get_abbrvname a.name).isSome)
    (hC : ∀ c ∈ doc.contributors, (get_abbrvname c.name).isSome)
    (hN : ∃ a ∈ doc.authors, a.affiliations.isSome) :
    ((∃ art, article_init doc = .ok art) ↔
      (doc.code.isSome ∧ ∀ c ∈ doc.contributors, c.role ∈ PyRoles)) ∧
    ((∃ c ∈ doc.contributors, c.role ∉ PyRoles) →
      article_init doc = .error .indexErrorBare ∧
      PyErr.message .indexErrorBare = none) ∧
    ((∀ c ∈ doc.contributors, c.role ∈ PyRoles) → doc.code = none →
      article_init doc = .error (.indexErrorMsg "Code repository not found".toList) ∧
      PyErr.message (.indexErrorMsg "Code repository not found".toList)
        = some "Code repository not found".toList) := by
  have hfm : doc.authors.filterMap author_of ≠ [] := by
    obtain ⟨a, ha, hs⟩ := hN
    obtain ⟨c, hc⟩ := Option.isSome_iff_exists.mp (author_of_isSome hs (hA a ha hs))
    exact List.ne_nil_of_mem (List.mem_filterMap.mpr ⟨a, ha, hc⟩)
  refine ⟨⟨?_, ?_⟩, ?_, ?_⟩
  · rintro ⟨art, hart⟩
    by_cases hroles : ∀ c ∈ doc.contributors, c.role ∈ PyRoles
    · refine ⟨?_, hroles⟩
      cases hcode : doc.code with
      | some c => rfl
      | none =>
        rw [article_init_fail_code doc hA hC hroles hcode] at hart
        exact absurd hart (by simp)
    · push_neg at hroles
      rw [article_init_fail_role doc hA hC hroles] at hart
      exact absurd hart (by simp)
  · rintro ⟨hcode, hroles⟩
    exact article_init_ok_general doc hA hC hroles hcode hfm
  · intro hbad
    exact ⟨article_init_fail_role doc hA hC hbad, rfl⟩
  · intro hroles hcode
    exact ⟨article_init_fail_code doc hA hC hroles hcode, rfl⟩

/-- C7 witness: the amended theorem applied to the document that lacks
the code-repository section. -/
theorem c7_article_init_fails_iff_witness :
    ((∃ art, article_init doc_nocode = .ok art) ↔
      (doc_nocode.code.isSome ∧ ∀ c ∈ doc_nocode.contributors, c.role ∈ PyRoles)) ∧
    ((∃ c ∈ doc_nocode.contributors, c.role ∉ PyRoles) →
      article_init doc_nocode = .error .indexErrorBare ∧
      PyErr.message .indexErrorBare = none) ∧
    ((∀ c ∈ doc_nocode.contributors, c.role ∈ PyRoles) → doc_nocode.code = none →
      article_init doc_nocode
        = .error (.indexErrorMsg "Code repository not found".toList) ∧
      PyErr.message (.indexErrorMsg "Code repository not found".toList)
        = some "Code repository not found".toList) :=
  c7_article_init_fails_iff doc_nocode (by decide) (by decide) (by decide)

/-- C9 counterexample: in `doc_marked` both authors carry the `"*"`
marker; the recorded contact is the LAST marked author in document order
(Bob Beta), not the first (Ann Alpha) as the claim states. -/
theorem c9_contact_last_not_first :
    (article_init doc_marked).toOption.map (fun art => art.contact) =
      some (.contrib ⟨"author".toList, "Bob Beta".toList, [], [], ["2".toList],
        "Beta".toList, "B. Beta".toList⟩) ∧
    "Bob Beta".toList ≠ "Ann Alpha".toList := by
  refine ⟨by decide, by decide⟩

/-- C9 (amended): for every valid document with at least one marked
author (comma-split affiliation string containing the token "*"),
construction succeeds, the first occurrence of the marker is removed from
each marked author's stored affiliation list, and the LAST marked author
in document order is recorded as the distinguished contact author. -/
theorem c9_contact_marked_stripped_last_wins (doc : Document) (h : ValidDoc doc)
    (hm : doc.authors.filter author_marked ≠ []) :
    ∃ art i c, article_init doc = .ok art ∧
      (doc.authors.filter author_marked).getLast? = some i ∧
      author_of i = some c ∧ art.contact = .contrib c ∧
      (∀ a ∈ doc.authors, ∀ s, a.affiliations = some s → s.length > 1 →
        "*".toList ∈ pySplit ',' s →
        ∃ ca, author_of a = some ca ∧ ca ∈ art.authors ∧
          ca.affiliations = (pySplit ',' s).erase "*".toList) := by
  obtain ⟨art, hinit, hauth, _, _, _, _, hcon2⟩ := article_init_ok_valid doc h
  obtain ⟨i, hi⟩ := Option.isSome_iff_exists.mp (List.getLast?_isSome.mpr hm)
  obtain ⟨c, hc, hcon⟩ := hcon2 i hi
  refine ⟨art, i, c, hinit, hi, hc, hcon, ?_⟩
  intro a ha s hs hlen hstar
  have haffs : a.affiliations.isSome := by rw [hs]; rfl
  obtain ⟨ca, hca⟩ := Option.isSome_iff_exists.mp
    (author_of_isSome haffs (h.1 a ha haffs).1)
  refine ⟨ca, hca, by rw [hauth]; exact List.mem_filterMap.mpr ⟨a, ha, hca⟩, ?_⟩
  have hca' := hca
  rw [author_of, hs] at hca'
  dsimp only at hca'
  rw [author_affs, if_pos hlen, if_pos hstar] at hca'
  exact (Contributor.make_fields _ _ _ _ _ _ hca').2.2.2.2

/-- C9 witness: the amended theorem applied to `doc_marked`. -/
theorem c9_contact_marked_stripped_last_wins_witness :
    ∃ art i c, article_init doc_marked = .ok art ∧
      (doc_marked.authors.filter author_marked).getLast? = some i ∧
      author_of i = some c ∧ art.contact = .contrib c ∧
      (∀ a ∈ doc_marked.authors, ∀ s, a.affiliations = some s → s.length > 1 →
        "*".toList ∈ pySplit ',' s →
        ∃ ca, author_of a = some ca ∧ ca ∈ art.authors ∧
          ca.affiliations = (pySplit ',' s).erase "*".toList) :=
  c9_contact_marked_stripped_last_wins doc_marked (by decide) (by decide)

/-- C10: for every valid document in which no author entry is marked with
the "*" contact sentinel, construction succeeds and the `contact`
attribute keeps its initial value, the empty string — it never becomes a
`Contributor` record. -/
theorem c10_contact_empty_without_marker (doc : Document) (h : ValidDoc doc)
    (hnm : ∀ a ∈ doc.authors, author_marked a = false) :
    ∃ art, article_init doc = .ok art ∧ art.contact = .str [] := by
  obtain ⟨art, hinit, _, _, _, _, hcon1, _⟩ := article_init_ok_valid doc h
  refine ⟨art, hinit, hcon1 (List.filter_eq_nil_iff.mpr ?_)⟩
  intro a ha
  simp [hnm a ha]

/-- C10 witness: the theorem applied to the marker-free `doc_ok`. -/
theorem c10_contact_empty_without_marker_witness :
    ∃ art, article_init doc_ok = .ok art ∧ art.contact = .str [] :=
  c10_contact_empty_without_marker doc_ok (by decide) (by decide)
